import Mathlib

set_option maxRecDepth 100000

/-!
Shallow embedding of the news digest aggregation pipeline
(source: src/news_digest.py) together with proofs of the specified
properties.  External collaborators (the feed fetcher, the dateutil
parser and the g4f summarization service) are supplied as explicit
oracle parameters; the code under verification is the pure pipeline
logic: text normalization, date normalization, naive summarization,
the external-summarizer fallback wrapper, recency filtering,
fingerprint deduplication, sorting and truncation.
-/

/-- isPyWs models the ASCII whitespace class used by the Python regex
class backslash-s and by str.strip / str.rstrip. -/
def isPyWs (c : Char) : Bool :=
  c = ' ' || c = '\t' || c = '\n' || c = '\r' || c = '\x0b' || c = '\x0c'

/-- pyOr models the Python expression a or b on strings: the empty
string is falsy, every other string is truthy. -/
def pyOr (a b : String) : String :=
  if a = "" then b else a

/-- lexLe models the Python less-or-equal comparison of strings as used
by list.sort: lexicographic comparison of unicode code points. -/
def lexLe : List Char → List Char → Bool
  | [], _ => true
  | _ :: _, [] => false
  | a :: as, b :: bs =>
    if a.toNat < b.toNat then true
    else if b.toNat < a.toNat then false
    else lexLe as bs

/-- tagStart recognizes the characters that may follow a tag-opening
angle bracket in html.parser: an ascii letter opens a start tag, a
slash an end tag, an exclamation mark a declaration or comment, and a
question mark a processing instruction.  After any other character
html.parser keeps the bracket as literal text. -/
def tagStart (c : Char) : Bool :=
  c.isAlpha || c = '/' || c = '!' || c = '?'

/-- entDecode matches one of the supported character references at the
head of the input after an ampersand and returns the decoded character
together with the remaining input. -/
def entDecode : List Char → Option (Char × List Char)
  | 'l' :: 't' :: ';' :: rest => some ('<', rest)
  | 'g' :: 't' :: ';' :: rest => some ('>', rest)
  | 'a' :: 'm' :: 'p' :: ';' :: rest => some ('&', rest)
  | 'q' :: 'u' :: 'o' :: 't' :: ';' :: rest => some ('"', rest)
  | _ => none

/-- tagOpenOk decides whether the characters after a tag-opening
bracket start with a tag-start character and contain a closing bracket,
so that html.parser consumes the construct as markup. -/
def tagOpenOk : List Char → Bool
  | [] => false
  | d :: rest => tagStart d && (d :: rest).contains '>'

/-- removeTagsFuel models the text extraction performed by
BeautifulSoup(html, "html.parser").get_text with a one-space separator
and per-node stripping, as a scanner over the characters.  A
tag-opening bracket swallows the input up to the next closing bracket
only when it is followed by a tag-start character and such a closing
bracket exists; otherwise html.parser keeps the bracket as literal text
in a data node of its own, which the separator surrounds with spaces —
so inputs like a < b, a <b or a trailing bracket pass through.  In text
position the character references for the markup delimiters, the
ampersand and the double quote are decoded in place, as html.parser
does with charref conversion; the model covers this representative
subset of the reference table, in the lowercase semicolon-terminated
form, and keeps any other ampersand sequence as text.  The scanner ends
a tag at the first closing bracket, approximating the attribute-quoting
and comment subtleties of the real tokenizer.  The flag records whether
the scanner is inside a tag; the first argument is recursion fuel. -/
def removeTagsFuel : Nat → Bool → List Char → List Char
  | 0, _, _ => []
  | fuel + 1, b, l =>
    match b, l with
    | _, [] => []
    | true, c :: cs =>
      if c = '>' then removeTagsFuel fuel false cs else removeTagsFuel fuel true cs
    | false, c :: cs =>
      if c = '&' then
        match entDecode cs with
        | some er => er.1 :: removeTagsFuel fuel false er.2
        | none => '&' :: removeTagsFuel fuel false cs
      else if c = '<' then
        if tagOpenOk cs then ' ' :: removeTagsFuel fuel true cs
        else ' ' :: '<' :: ' ' :: removeTagsFuel fuel false cs
      else c :: removeTagsFuel fuel false cs

/-- removeTagsAux runs the scanner with a structural fuel bound of the
input length, which is always sufficient since every step consumes at
least one character. -/
def removeTagsAux (b : Bool) (l : List Char) : List Char :=
  removeTagsFuel l.length b l

/-- collapseAux models re.sub of one-or-more whitespace with a single
space: every maximal run of whitespace becomes one space.  The flag
records whether the previous character was whitespace. -/
def collapseAux : Bool → List Char → List Char
  | _, [] => []
  | prevWs, c :: cs =>
    if isPyWs c then
      if prevWs then collapseAux true cs else ' ' :: collapseAux true cs
    else c :: collapseAux false cs

/-- dropTrailWs models the Python str.rstrip method on a character
list: the maximal trailing run of whitespace is removed. -/
def dropTrailWs : List Char → List Char
  | [] => []
  | c :: cs =>
    match dropTrailWs cs with
    | [] => if isPyWs c then [] else [c]
    | d :: ds => c :: d :: ds

/-- pyStripChars models the Python str.strip method on a character
list: leading and trailing whitespace runs are removed. -/
def pyStripChars (l : List Char) : List Char :=
  dropTrailWs (l.dropWhile isPyWs)

/-- strip_html embeds the source function strip_html: empty input is
returned unchanged, otherwise tags are removed, whitespace runs are
collapsed to single spaces and the result is stripped at both ends. -/
def strip_html (html : String) : String :=
  if html = "" then ""
  else String.mk (pyStripChars (collapseAux false (removeTagsAux false html.data)))

/-- ParsedDt models a value returned by the dateutil parser oracle: a
naive wall-clock timestamp in seconds together with the explicit UTC
offset in seconds when the input carried timezone information. -/
structure ParsedDt where
  t : Int
  tzOffset : Option Int
deriving DecidableEq

/-- parse_datetime embeds the source function parse_datetime, with the
dateutil parser supplied as an oracle; a none result of the oracle
stands both for an unparsable string and for an exception raised by the
library, both of which the source converts to a none result.  A naive
timestamp is interpreted as already UTC, an aware one is converted to
UTC by subtracting its offset. -/
def parse_datetime (dtO : String → Option ParsedDt) (dt_str : String) : Option Int :=
  if dt_str = "" then none
  else
    match dtO dt_str with
    | none => none
    | some d =>
      match d.tzOffset with
      | none => some d.t
      | some off => some (d.t - off)

/-- isSentEnd recognizes the sentence-terminal punctuation characters
of the regex used by summarize_naive. -/
def isSentEnd (c : Char) : Bool :=
  c = '.' || c = '!' || c = '?'

theorem dropWhile_length_le (p : α → Bool) (l : List α) :
    (l.dropWhile p).length ≤ l.length := by
  induction l with
  | nil => simp [List.dropWhile]
  | cons a as ih =>
    simp only [List.dropWhile]
    split
    · exact Nat.le_succ_of_le ih
    · exact Nat.le_refl _

/-- splitSentencesAux models re.split of the pattern
lookbehind-sentence-punctuation whitespace-run applied to the text, as
a one-pass scanner: a sentence ends at punctuation followed by
whitespace, the whole whitespace run is consumed (the skipping flag),
and a trailing match produces a trailing empty piece. -/
def splitSentencesAux (skipping : Bool) (acc : List Char) : List Char → List (List Char)
  | [] => [acc.reverse]
  | c :: cs =>
    if skipping && isPyWs c then splitSentencesAux true acc cs
    else
      match cs with
      | [] => [(c :: acc).reverse]
      | d :: _ =>
        if isSentEnd c && isPyWs d then
          (c :: acc).reverse :: splitSentencesAux true [] cs
        else
          splitSentencesAux false (c :: acc) cs

/-- splitSentences embeds the sentence splitting step of
summarize_naive. -/
def splitSentences (s : String) : List String :=
  (splitSentencesAux false [] s.data).map String.mk

/-- joinSp models the Python join of a list of strings with a single
space separator. -/
def joinSp : List String → String
  | [] => ""
  | [s] => s
  | s :: t :: rest => s ++ " " ++ joinSp (t :: rest)

/-- strTake models Python string slicing from the start, by code
points. -/
def strTake (n : Nat) (s : String) : String :=
  String.mk (s.data.take n)

/-- rstripStr models the Python str.rstrip method. -/
def rstripStr (s : String) : String :=
  String.mk (dropTrailWs s.data)

/-- pyStripStr models the Python str.strip method. -/
def pyStripStr (s : String) : String :=
  String.mk (pyStripChars s.data)

/-- summarize_naive embeds the source function summarize_naive: split
into sentences, join the first max_sentences of them, and if the join
is longer than max_chars, cut at position max_chars - 1, strip trailing
whitespace and append the three-dot ellipsis. -/
def summarize_naive (text : String) (max_sentences max_chars : Nat) : String :=
  if text = "" then ""
  else
    let summary := joinSp ((splitSentences text).take max_sentences)
    if max_chars < summary.length then
      rstripStr (strTake (max_chars - 1) summary) ++ "..."
    else summary

/-- summarize_with_g4f embeds the source function summarize_with_g4f.
The g4f library is an oracle: none models a failing import, and the
call itself may fail with an exception, modelled by an error result;
in both failure cases the source falls back to summarize_naive with its
default arguments.  On success the response is stringified and
stripped. -/
def summarize_with_g4f (g4fO : Option (String → Except Unit String)) (text : String) : String :=
  match g4fO with
  | none => summarize_naive text 2 300
  | some call =>
    match call ("Перескажи нейтрально и коротко: " ++ text) with
    | Except.error _ => summarize_naive text 2 300
    | Except.ok response => pyStripStr response

/-- natDigitsAux computes the decimal digits of a natural number, most
significant first, with a structural fuel bound. -/
def natDigitsAux : Nat → Nat → List Char
  | 0, _ => []
  | fuel + 1, n =>
    if n < 10 then [Nat.digitChar n]
    else natDigitsAux fuel (n / 10) ++ [Nat.digitChar (n % 10)]

/-- natDigits gives the decimal digits of a natural number, most
significant first, used to model Python number formatting inside
datetime.isoformat; the fuel bound of one more than the number is
always sufficient. -/
def natDigits (n : Nat) : List Char :=
  natDigitsAux (n + 1) n

/-- padC left-pads the decimal digits of a number with zeros up to a
given width, as datetime.isoformat does for year, month, day, hour,
minute and second fields. -/
def padC (w n : Nat) : List Char :=
  List.replicate (w - (natDigits n).length) '0' ++ natDigits n

/-- yearChars formats the year field of an isoformat string. -/
def yearChars (y : Int) : List Char :=
  if y < 0 then '-' :: padC 4 (-y).toNat else padC 4 y.toNat

/-- civilFromDays converts a count of days since the unix epoch into a
calendar date, following the standard civil-from-days algorithm used by
datetime. -/
def civilFromDays (z0 : Int) : Int × Nat × Nat :=
  let z := z0 + 719468
  let era : Int := z.ediv 146097
  let doe : Nat := (z.emod 146097).toNat
  let yoe : Nat := (doe - doe / 1460 + doe / 36524 - doe / 146096) / 365
  let y : Int := (yoe : Int) + era * 400
  let doy : Nat := doe - (365 * yoe + yoe / 4 - yoe / 100)
  let mp : Nat := (5 * doy + 2) / 153
  let d : Nat := doy - (153 * mp + 2) / 5 + 1
  let m : Nat := if mp < 10 then mp + 3 else mp - 9
  (if m ≤ 2 then y + 1 else y, m, d)

/-- isoTail formats everything after the year field of an isoformat
string: month and day, the letter T, hour, minute and second, and the
explicit +00:00 offset of a UTC-aware value. -/
def isoTail (t : Int) : List Char :=
  let date := civilFromDays (t.ediv 86400)
  let sod : Nat := (t.emod 86400).toNat
  '-' :: padC 2 date.2.1 ++ '-' :: padC 2 date.2.2 ++
    'T' :: padC 2 (sod / 3600) ++ ':' :: padC 2 (sod / 60 % 60) ++
    ':' :: padC 2 (sod % 60) ++ ('+' :: '0' :: '0' :: ':' :: '0' :: '0' :: [])

/-- isoChars formats a UTC timestamp in seconds as the character list
of the string produced by datetime.isoformat on a UTC-aware value with
whole seconds: year-month-day, the letter T, hour-minute-second and the
explicit +00:00 offset. -/
def isoChars (t : Int) : List Char :=
  yearChars (civilFromDays (t.ediv 86400)).1 ++ isoTail t

/-- isoformat models the datetime.isoformat call performed on a parsed
UTC timestamp before it is stored in the date field. -/
def isoformat (t : Int) : String :=
  String.mk (isoChars t)

/-- RawEntry models one feedparser entry; every field is read in the
source with entry.get and an empty-string default, so a missing field
is represented by the empty string. -/
structure RawEntry where
  title : String
  summary : String
  description : String
  published : String
  updated : String
  link : String
deriving DecidableEq

/-- DigestItem models one dictionary appended to all_news by
fetch_news. -/
structure DigestItem where
  title : String
  summary : String
  date : String
  source : String
  link : String
  category : String
deriving DecidableEq

/-- FEEDS embeds the module-level feed configuration table of the
source, as a list of categories in insertion order, each with its list
of source-name and url pairs. -/
def FEEDS : List (String × List (String × String)) :=
  [("Маркетинг",
     [("Marketing Dive", "https://www.marketingdive.com/feeds/news/"),
      ("HubSpot Blog", "https://blog.hubspot.com/marketing/rss.xml")]),
   ("Технологии",
     [("TechCrunch", "http://feeds.feedburner.com/Techcrunch/"),
      ("The Verge", "https://www.theverge.com/rss/index.xml")]),
   ("Реклама",
     [("Adweek", "https://www.adweek.com/feed/"),
      ("Campaign US", "https://www.campaignlive.com/us/rss")]),
   ("Искусственный интеллект",
     [("VentureBeat – AI", "https://venturebeat.com/category/ai/feed/"),
      ("The Decoder", "https://the-decoder.com/feed/")]),
   ("Социальные сети",
     [("Social Media Today", "https://www.socialmediatoday.com/.rss/full/"),
      ("Mashable – Social Media", "https://mashable.com/feeds/social-media/")])]

/-- cutoffOf embeds the cutoff computation of fetch_news: the current
UTC time minus the requested number of days, in seconds. -/
def cutoffOf (now days : Int) : Int :=
  now - days * 86400

/-- mkDigestItem builds the item dictionary appended by fetch_news: a
normalized title, a summary produced by the selected strategy from the
normalized description, the rendered date field, the source name, the
link and the category. -/
def mkDigestItem (category source_name : String)
    (g4fO : Option (String → Except Unit String)) (use_g4f : Bool)
    (entry : RawEntry) (dateField : String) : DigestItem :=
  { title := strip_html entry.title,
    summary :=
      if use_g4f then summarize_with_g4f g4fO (strip_html (pyOr entry.summary entry.description))
      else summarize_naive (strip_html (pyOr entry.summary entry.description)) 2 300,
    date := dateField,
    source := source_name,
    link := entry.link,
    category := category }

/-- processEntry embeds the per-entry body of the fetch_news loop: the
title is normalized and the entry is dropped when it is empty; the date
string is parsed, an entry whose parsed date is strictly older than the
cutoff is dropped, and otherwise the item dictionary is built with the
date rendered by isoformat or by the unknown sentinel. -/
def processEntry (category source_name : String) (cutoff : Int)
    (dtO : String → Option ParsedDt) (g4fO : Option (String → Except Unit String))
    (use_g4f : Bool) (entry : RawEntry) : Option DigestItem :=
  if strip_html entry.title = "" then none
  else
    match parse_datetime dtO (pyOr entry.published entry.updated) with
    | some t =>
      if t < cutoff then none
      else some (mkDigestItem category source_name g4fO use_g4f entry (isoformat t))
    | none => some (mkDigestItem category source_name g4fO use_g4f entry "unknown")

/-- all_news_of embeds the accumulation of all_news in fetch_news: for
each category in order, for each feed source in order, the entries
returned by the fetch oracle are processed in order and the surviving
items are appended. -/
def all_news_of (feeds : List (String × List (String × String)))
    (fetch : String → List RawEntry) (dtO : String → Option ParsedDt)
    (g4fO : Option (String → Except Unit String)) (now days : Int)
    (use_g4f : Bool) : List DigestItem :=
  feeds.flatMap fun cf =>
    cf.2.flatMap fun su =>
      (fetch su.2).filterMap
        (processEntry cf.1 su.1 (cutoffOf now days) dtO g4fO use_g4f)

/-- itemKey models the deduplication fingerprint of fetch_news.  The
source hashes the utf-8 bytes of the concatenation of title and source
with SHA-256; since the hash is deterministic, equal concatenations
give equal digests, and the fingerprint is modelled by the
concatenation itself.  Collisions of SHA-256 between distinct
concatenations are not modelled. -/
def itemKey (n : DigestItem) : String :=
  n.title ++ n.source

/-- dedupAux embeds the deduplication loop of fetch_news: an item whose
fingerprint is already in the seen set is dropped, otherwise it is kept
and its fingerprint recorded.  The Python set is modelled by a list
with membership. -/
def dedupAux (seen : List String) : List DigestItem → List DigestItem
  | [] => []
  | n :: ns =>
    if itemKey n ∈ seen then dedupAux seen ns
    else n :: dedupAux (itemKey n :: seen) ns

/-- unique_of embeds the deduplicated list unique of fetch_news. -/
def unique_of (feeds : List (String × List (String × String)))
    (fetch : String → List RawEntry) (dtO : String → Option ParsedDt)
    (g4fO : Option (String → Except Unit String)) (now days : Int)
    (use_g4f : Bool) : List DigestItem :=
  dedupAux [] (all_news_of feeds fetch dtO g4fO now days use_g4f)

/-- dateRel is the before-relation realizing the stable descending sort
of fetch_news: an item may be placed before another exactly when its
date string is greater or equal in the Python string order. -/
def dateRel (a b : DigestItem) : Prop :=
  lexLe b.date.data a.date.data = true

instance : DecidableRel dateRel := fun a b =>
  inferInstanceAs (Decidable (lexLe b.date.data a.date.data = true))

/-- sorted_of embeds the list.sort call of fetch_news with the date
string as key and reverse set: a stable descending sort, modelled by
the stable insertion sort with the dateRel placement relation. -/
def sorted_of (feeds : List (String × List (String × String)))
    (fetch : String → List RawEntry) (dtO : String → Option ParsedDt)
    (g4fO : Option (String → Except Unit String)) (now days : Int)
    (use_g4f : Bool) : List DigestItem :=
  List.insertionSort dateRel (unique_of feeds fetch dtO g4fO now days use_g4f)

/-- pySliceStop models the Python slice of a list up to a stop index:
for a nonnegative stop it keeps at most that many leading items, for a
negative stop it drops that many items from the end. -/
def pySliceStop (k : Int) (l : List α) : List α :=
  if 0 ≤ k then l.take k.toNat
  else l.take ((l.length : Int) + k).toNat

/-- fetch_news embeds the source function fetch_news, with the network
and library collaborators supplied as oracles: accumulate, deduplicate,
sort descending by date string, and truncate with a Python slice by
limit. -/
def fetch_news (feeds : List (String × List (String × String)))
    (fetch : String → List RawEntry) (dtO : String → Option ParsedDt)
    (g4fO : Option (String → Except Unit String)) (now days limit : Int)
    (use_g4f : Bool) : List DigestItem :=
  pySliceStop limit (sorted_of feeds fetch dtO g4fO now days use_g4f)

theorem lexLe_total : ∀ a b : List Char, lexLe a b = true ∨ lexLe b a = true := by
  intro a
  induction a with
  | nil => intro b; left; rfl
  | cons x xs ih =>
    intro b
    cases b with
    | nil => right; rfl
    | cons y ys =>
      simp only [lexLe]
      by_cases h1 : x.toNat < y.toNat
      · left; simp [h1]
      · by_cases h2 : y.toNat < x.toNat
        · right; simp [h2]
        · rcases ih ys with h | h
          · left; simp [h1, h2, h]
          · right; simp [h1, h2, h]

theorem lexLe_trans :
    ∀ a b c : List Char, lexLe a b = true → lexLe b c = true → lexLe a c = true := by
  intro a
  induction a with
  | nil => intro b c _ _; rfl
  | cons x xs ih =>
    intro b c hab hbc
    cases b with
    | nil => simp [lexLe] at hab
    | cons y ys =>
      cases c with
      | nil => simp [lexLe] at hbc
      | cons z zs =>
        simp only [lexLe] at hab hbc ⊢
        split_ifs at hab hbc ⊢ <;>
          first
            | rfl
            | omega
            | (exact ih ys zs hab hbc)

instance : IsTotal DigestItem dateRel :=
  ⟨fun a b => lexLe_total b.date.data a.date.data⟩

instance : IsTrans DigestItem dateRel :=
  ⟨fun a b c hab hbc => lexLe_trans c.date.data b.date.data a.date.data hbc hab⟩

theorem natDigitsAux_head_lt :
    ∀ fuel n, n ≤ fuel →
      ∃ c cs, natDigitsAux (fuel + 1) n = c :: cs ∧ c.toNat < 58 := by
  intro fuel
  induction fuel with
  | zero =>
    intro n hn
    have hn0 : n = 0 := Nat.le_zero.mp hn
    subst hn0
    exact ⟨'0', [], rfl, by decide⟩
  | succ fuel ih =>
    intro n hn
    show ∃ c cs, natDigitsAux (fuel + 1 + 1) n = c :: cs ∧ c.toNat < 58
    rw [natDigitsAux]
    split
    · rename_i h
      refine ⟨Nat.digitChar n, [], rfl, ?_⟩
      have hall : ∀ k, k < 10 → (Nat.digitChar k).toNat < 58 := by decide
      exact hall n h
    · rename_i h
      obtain ⟨c, cs, heq, hlt⟩ := ih (n / 10) (by omega)
      exact ⟨c, cs ++ [Nat.digitChar (n % 10)], by rw [heq]; rfl, hlt⟩

theorem natDigits_head_lt (n : Nat) :
    ∃ c cs, natDigits n = c :: cs ∧ c.toNat < 58 :=
  natDigitsAux_head_lt n n (Nat.le_refl n)

theorem padC_head (w n : Nat) : ∃ c cs, padC w n = c :: cs ∧ c.toNat < 58 := by
  unfold padC
  cases hw : w - (natDigits n).length with
  | zero =>
    simp only [List.replicate, List.nil_append]
    exact natDigits_head_lt n
  | succ k =>
    exact ⟨'0', List.replicate k '0' ++ natDigits n, by simp [List.replicate_succ], by decide⟩

theorem yearChars_head (y : Int) : ∃ c cs, yearChars y = c :: cs ∧ c.toNat < 117 := by
  unfold yearChars
  split
  · exact ⟨'-', padC 4 (-y).toNat, rfl, by decide⟩
  · obtain ⟨c, cs, heq, h⟩ := padC_head 4 y.toNat
    exact ⟨c, cs, heq, by omega⟩

theorem isoChars_eq_append (t : Int) :
    ∃ r, isoChars t = yearChars (civilFromDays (t.ediv 86400)).1 ++ r :=
  ⟨isoTail t, rfl⟩

theorem isoChars_head (t : Int) : ∃ c cs, isoChars t = c :: cs ∧ c.toNat < 117 := by
  obtain ⟨r, hr⟩ := isoChars_eq_append t
  obtain ⟨c, cs, heq, h⟩ := yearChars_head (civilFromDays (t.ediv 86400)).1
  exact ⟨c, cs ++ r, by rw [hr, heq]; simp, h⟩

theorem lexLe_unknown_iso (t : Int) : lexLe ("unknown".data) (isoChars t) = false := by
  obtain ⟨c, cs, heq, h⟩ := isoChars_head t
  rw [heq]
  have hd : "unknown".data = 'u' :: ['n', 'k', 'n', 'o', 'w', 'n'] := rfl
  rw [hd]
  have hu : ('u').toNat = 117 := rfl
  simp only [lexLe]
  rw [if_neg (by omega), if_pos (by omega)]

theorem dedupAux_subset (l : List DigestItem) :
    ∀ seen, ∀ x ∈ dedupAux seen l, x ∈ l := by
  induction l with
  | nil => intro seen x hx; simp [dedupAux] at hx
  | cons n ns ih =>
    intro seen x hx
    simp only [dedupAux] at hx
    split at hx
    · exact List.mem_cons_of_mem _ (ih seen x hx)
    · rcases List.mem_cons.mp hx with rfl | hx'
      · exact List.mem_cons_self _ _
      · exact List.mem_cons_of_mem _ (ih _ x hx')

theorem dedupAux_not_seen (l : List DigestItem) :
    ∀ seen, ∀ x ∈ dedupAux seen l, itemKey x ∉ seen := by
  induction l with
  | nil => intro seen x hx; simp [dedupAux] at hx
  | cons n ns ih =>
    intro seen x hx
    simp only [dedupAux] at hx
    split at hx
    · exact ih seen x hx
    · rename_i hns
      rcases List.mem_cons.mp hx with rfl | hx'
      · exact hns
      · have h := ih (itemKey n :: seen) x hx'
        exact fun hc => h (List.mem_cons_of_mem _ hc)

theorem dedupAux_pairwise (l : List DigestItem) :
    ∀ seen, (dedupAux seen l).Pairwise (fun a b => itemKey a ≠ itemKey b) := by
  induction l with
  | nil => intro seen; exact List.Pairwise.nil
  | cons n ns ih =>
    intro seen
    simp only [dedupAux]
    split
    · exact ih seen
    · refine List.Pairwise.cons ?_ (ih (itemKey n :: seen))
      intro b hb
      have h := dedupAux_not_seen ns (itemKey n :: seen) b hb
      exact fun hc => h (by rw [← hc]; exact List.mem_cons_self _ _)

theorem dedupAux_first_seen (l : List DigestItem) :
    ∀ seen, ∀ x ∈ dedupAux seen l,
      l.find? (fun n => itemKey n == itemKey x) = some x := by
  induction l with
  | nil => intro seen x hx; simp [dedupAux] at hx
  | cons n ns ih =>
    intro seen x hx
    simp only [dedupAux] at hx
    split at hx
    · rename_i hseen
      have hxs := dedupAux_not_seen ns seen x hx
      have hne : ¬ (itemKey n == itemKey x) = true := by
        simp only [beq_iff_eq]
        exact fun hc => hxs (hc ▸ hseen)
      rw [@List.find?_cons_of_neg _ (fun m => itemKey m == itemKey x) n ns hne]
      exact ih seen x hx
    · rcases List.mem_cons.mp hx with rfl | hx'
      · exact List.find?_cons_of_pos _ (by simp)
      · have hxs := dedupAux_not_seen ns (itemKey n :: seen) x hx'
        have hne : ¬ (itemKey n == itemKey x) = true := by
          simp only [beq_iff_eq]
          exact fun hc => hxs (by rw [← hc]; exact List.mem_cons_self _ _)
        rw [@List.find?_cons_of_neg _ (fun m => itemKey m == itemKey x) n ns hne]
        exact ih _ x hx'

theorem find?_transfer {p q : α → Bool} (himp : ∀ n, q n = true → p n = true) :
    ∀ (l : List α) (x : α), l.find? p = some x → q x = true → l.find? q = some x := by
  intro l
  induction l with
  | nil => intro x h; simp at h
  | cons a as ih =>
    intro x h hqx
    by_cases hpa : p a = true
    · rw [List.find?_cons_of_pos _ hpa] at h
      have : a = x := by injection h
      subst this
      exact List.find?_cons_of_pos _ hqx
    · have hqa : ¬ q a = true := fun hq => hpa (himp a hq)
      rw [List.find?_cons_of_neg _ hpa] at h
      rw [List.find?_cons_of_neg _ hqa]
      exact ih x h hqx

theorem processEntry_date_shape (cat src : String) (cutoff : Int)
    (dtO : String → Option ParsedDt) (g4fO : Option (String → Except Unit String))
    (ug : Bool) (e : RawEntry) (x : DigestItem)
    (h : processEntry cat src cutoff dtO g4fO ug e = some x) :
    x.date = "unknown" ∨ ∃ t, x.date = isoformat t := by
  unfold processEntry at h
  split at h
  · exact absurd h (by simp)
  · split at h
    · rename_i t heq
      split at h
      · exact absurd h (by simp)
      · injection h with h2
        subst h2
        exact Or.inr ⟨t, rfl⟩
    · injection h with h2
      subst h2
      exact Or.inl rfl

theorem mem_all_news_date (feeds : List (String × List (String × String)))
    (fetch : String → List RawEntry) (dtO : String → Option ParsedDt)
    (g4fO : Option (String → Except Unit String)) (now days : Int) (ug : Bool) :
    ∀ x ∈ all_news_of feeds fetch dtO g4fO now days ug,
      x.date = "unknown" ∨ ∃ t, x.date = isoformat t := by
  intro x hx
  unfold all_news_of at hx
  simp only [List.mem_flatMap, List.mem_filterMap] at hx
  obtain ⟨cf, _, su, _, e, _, hpe⟩ := hx
  exact processEntry_date_shape cf.1 su.1 (cutoffOf now days) dtO g4fO ug e x hpe

theorem mem_fetch_news_unique (feeds : List (String × List (String × String)))
    (fetch : String → List RawEntry) (dtO : String → Option ParsedDt)
    (g4fO : Option (String → Except Unit String)) (now days limit : Int) (ug : Bool) :
    ∀ x ∈ fetch_news feeds fetch dtO g4fO now days limit ug,
      x ∈ unique_of feeds fetch dtO g4fO now days ug := by
  intro x hx
  unfold fetch_news pySliceStop at hx
  have hx' : x ∈ sorted_of feeds fetch dtO g4fO now days ug := by
    split at hx <;> exact List.take_subset _ _ hx
  unfold sorted_of at hx'
  exact (List.mem_insertionSort dateRel).mp hx'

theorem mem_unique_all_news (feeds : List (String × List (String × String)))
    (fetch : String → List RawEntry) (dtO : String → Option ParsedDt)
    (g4fO : Option (String → Except Unit String)) (now days : Int) (ug : Bool) :
    ∀ x ∈ unique_of feeds fetch dtO g4fO now days ug,
      x ∈ all_news_of feeds fetch dtO g4fO now days ug := by
  intro x hx
  exact dedupAux_subset _ [] x hx

theorem fetch_news_pairwise_dateRel (feeds : List (String × List (String × String)))
    (fetch : String → List RawEntry) (dtO : String → Option ParsedDt)
    (g4fO : Option (String → Except Unit String)) (now days limit : Int) (ug : Bool) :
    (fetch_news feeds fetch dtO g4fO now days limit ug).Pairwise dateRel := by
  have hs : (sorted_of feeds fetch dtO g4fO now days ug).Pairwise dateRel :=
    List.sorted_insertionSort dateRel _
  unfold fetch_news pySliceStop
  split <;> exact List.Pairwise.sublist (List.take_sublist _ _) hs

/-- entryDated is a concrete raw entry whose date string the concrete
date oracle can parse. -/
def entryDated : RawEntry :=
  { title := "Dated", summary := "Something happened. More text follows.",
    description := "", published := "GOODDATE", updated := "", link := "L1" }

/-- entryUnknown is a concrete raw entry whose date string no oracle
parses. -/
def entryUnknown : RawEntry :=
  { title := "Mystery", summary := "No date here.",
    description := "", published := "baddate", updated := "", link := "L2" }

/-- dtOracle0 is a concrete dateutil oracle parsing exactly one date
string to midnight of the first of January 2024 UTC. -/
def dtOracle0 : String → Option ParsedDt := fun s =>
  if s = "GOODDATE" then some { t := 1704067200, tzOffset := none } else none

/-- fetch0 is a concrete feed fetcher returning one dated and one
unknown-dated entry for a single url. -/
def fetch0 : String → List RawEntry := fun url =>
  if url = "u1" then [entryDated, entryUnknown] else []

/-- feeds0 is a concrete one-category one-source feed table. -/
def feeds0 : List (String × List (String × String)) :=
  [("Tech", [("SrcA", "u1")])]

/-- C1 (amended): the sequence returned by fetch_news is pairwise
sorted by the date field in descending Python string order, and every
item whose date is the unknown sentinel is ordered BEFORE all items
that have a parsed date, because the sentinel string is
lexicographically greater than every isoformat date string. -/
theorem fetch_news_sorted_desc_unknown_first
    (feeds : List (String × List (String × String)))
    (fetch : String → List RawEntry) (dtO : String → Option ParsedDt)
    (g4fO : Option (String → Except Unit String)) (now days limit : Int) (ug : Bool) :
    (fetch_news feeds fetch dtO g4fO now days limit ug).Pairwise dateRel ∧
    (fetch_news feeds fetch dtO g4fO now days limit ug).Pairwise
      (fun a b => b.date = "unknown" → a.date = "unknown") := by
  refine ⟨fetch_news_pairwise_dateRel feeds fetch dtO g4fO now days limit ug, ?_⟩
  have hp := fetch_news_pairwise_dateRel feeds fetch dtO g4fO now days limit ug
  refine List.Pairwise.imp_of_mem ?_ hp
  intro a b ha _ hr hbu
  have hsa := mem_all_news_date feeds fetch dtO g4fO now days ug a
    (mem_unique_all_news feeds fetch dtO g4fO now days ug a
      (mem_fetch_news_unique feeds fetch dtO g4fO now days limit ug a ha))
  rcases hsa with h | ⟨t, ht⟩
  · exact h
  · exfalso
    unfold dateRel at hr
    rw [hbu, ht] at hr
    have hdata : (isoformat t).data = isoChars t := rfl
    rw [hdata, lexLe_unknown_iso t] at hr
    exact absurd hr (by simp)

/-- C1 witness: the amended ordering statement instantiated on the
concrete fixtures. -/
theorem fetch_news_sorted_desc_unknown_first_witness :
    (fetch_news feeds0 fetch0 dtOracle0 none 1704153600 7 7 false).Pairwise dateRel ∧
    (fetch_news feeds0 fetch0 dtOracle0 none 1704153600 7 7 false).Pairwise
      (fun a b => b.date = "unknown" → a.date = "unknown") :=
  fetch_news_sorted_desc_unknown_first feeds0 fetch0 dtOracle0 none 1704153600 7 7 false

/-- C1 counterexample: on a concrete run with one recent dated entry
and one unknown-dated entry, the unknown-dated item is ordered first,
refuting the claim that items with the unknown sentinel are ordered
after all items that have a parsed date. -/
theorem fetch_news_unknown_last_counterexample :
    ¬ (fetch_news feeds0 fetch0 dtOracle0 none 1704153600 7 7 false).Pairwise
        (fun a b => a.date = "unknown" → b.date = "unknown") := by
  have h : fetch_news feeds0 fetch0 dtOracle0 none 1704153600 7 7 false =
      [{ title := "Mystery", summary := "No date here.", date := "unknown",
         source := "SrcA", link := "L2", category := "Tech" },
       { title := "Dated", summary := "Something happened. More text follows.",
         date := "2024-01-01T00:00:00+00:00",
         source := "SrcA", link := "L1", category := "Tech" }] := by decide
  rw [h]
  intro hp
  rcases hp with _ | ⟨hrel, _⟩
  have h2 := hrel _ (List.mem_singleton_self _)
  simp at h2

/-- C2: inside fetch_news, an entry whose normalized title is nonempty
is dropped by the recency filter exactly when its date string parses
and the parsed timestamp is strictly older than the cutoff now minus
days; an entry whose date string does not parse is never excluded by
the recency filter and its date field is the unknown sentinel. -/
theorem processEntry_recency_filter (cat src : String)
    (dtO : String → Option ParsedDt) (g4fO : Option (String → Except Unit String))
    (ug : Bool) (now days : Int) (e : RawEntry)
    (ht : strip_html e.title ≠ "") :
    (processEntry cat src (cutoffOf now days) dtO g4fO ug e = none ↔
      ∃ t, parse_datetime dtO (pyOr e.published e.updated) = some t ∧
        t < cutoffOf now days) ∧
    (parse_datetime dtO (pyOr e.published e.updated) = none →
      ∃ item, processEntry cat src (cutoffOf now days) dtO g4fO ug e = some item ∧
        item.date = "unknown") := by
  unfold processEntry
  rw [if_neg ht]
  constructor
  · cases hp : parse_datetime dtO (pyOr e.published e.updated) with
    | none => simp [hp]
    | some t =>
      simp only [hp]
      by_cases hc : t < cutoffOf now days
      · simp [hc]
      · simp [hc]
  · intro hp
    simp only [hp]
    exact ⟨_, rfl, rfl⟩

/-- C2 witness: the filter statement instantiated on the concrete
unknown-dated entry. -/
theorem processEntry_recency_filter_witness :
    strip_html entryUnknown.title ≠ "" ∧
    ((processEntry "Tech" "SrcA" (cutoffOf 1704153600 7) dtOracle0 none false entryUnknown
        = none ↔
      ∃ t, parse_datetime dtOracle0 (pyOr entryUnknown.published entryUnknown.updated)
          = some t ∧ t < cutoffOf 1704153600 7) ∧
    (parse_datetime dtOracle0 (pyOr entryUnknown.published entryUnknown.updated) = none →
      ∃ item, processEntry "Tech" "SrcA" (cutoffOf 1704153600 7) dtOracle0 none false
          entryUnknown = some item ∧ item.date = "unknown")) :=
  ⟨by decide,
   processEntry_recency_filter "Tech" "SrcA" dtOracle0 none false 1704153600 7
     entryUnknown (by decide)⟩

/-- C3: the result of fetch_news contains at most one item per
normalized title and source pair, and every item of the result is the
first item of the accumulated list that carries its fingerprint, hence
the first seen in processing order. -/
theorem fetch_news_dedup_first_seen
    (feeds : List (String × List (String × String)))
    (fetch : String → List RawEntry) (dtO : String → Option ParsedDt)
    (g4fO : Option (String → Except Unit String)) (now days limit : Int) (ug : Bool) :
    ((fetch_news feeds fetch dtO g4fO now days limit ug).Pairwise
      fun a b => ¬(a.title = b.title ∧ a.source = b.source)) ∧
    (∀ x ∈ fetch_news feeds fetch dtO g4fO now days limit ug,
      (all_news_of feeds fetch dtO g4fO now days ug).find?
        (fun n => n.title == x.title && n.source == x.source) = some x) := by
  constructor
  · have hu : (unique_of feeds fetch dtO g4fO now days ug).Pairwise
        (fun a b => itemKey a ≠ itemKey b) := dedupAux_pairwise _ []
    have hs : (sorted_of feeds fetch dtO g4fO now days ug).Pairwise
        (fun a b => itemKey a ≠ itemKey b) := by
      unfold sorted_of
      exact ((List.perm_insertionSort dateRel _).pairwise_iff
        (fun h heq => h heq.symm)).mpr hu
    have hf : (fetch_news feeds fetch dtO g4fO now days limit ug).Pairwise
        (fun a b => itemKey a ≠ itemKey b) := by
      unfold fetch_news pySliceStop
      split <;> exact List.Pairwise.sublist (List.take_sublist _ _) hs
    exact hf.imp (fun h hc => h (by unfold itemKey; rw [hc.1, hc.2]))
  · intro x hx
    have hxu := mem_fetch_news_unique feeds fetch dtO g4fO now days limit ug x hx
    have hk := dedupAux_first_seen _ [] x hxu
    refine find?_transfer ?_ _ x hk ?_
    · intro n hq
      simp only [Bool.and_eq_true, beq_iff_eq] at hq
      simp only [beq_iff_eq, itemKey]
      rw [hq.1, hq.2]
    · simp

/-- mysteryItem0 is the digest item produced from the concrete
unknown-dated entry. -/
def mysteryItem0 : DigestItem :=
  { title := "Mystery", summary := "No date here.", date := "unknown",
    source := "SrcA", link := "L2", category := "Tech" }

/-- C3 witness: the first-seen statement instantiated on a concrete
item of a concrete run. -/
theorem fetch_news_dedup_first_seen_witness :
    mysteryItem0 ∈ fetch_news feeds0 fetch0 dtOracle0 none 1704153600 7 7 false ∧
    (all_news_of feeds0 fetch0 dtOracle0 none 1704153600 7 false).find?
      (fun n => n.title == mysteryItem0.title && n.source == mysteryItem0.source)
        = some mysteryItem0 :=
  ⟨by decide,
   (fetch_news_dedup_first_seen feeds0 fetch0 dtOracle0 none 1704153600 7 7 false).2
     mysteryItem0 (by decide)⟩

/-- C4: for every nonnegative limit the length of the fetch_news result
never exceeds the limit, and a limit of zero yields the empty
sequence. -/
theorem fetch_news_length_le_limit
    (feeds : List (String × List (String × String)))
    (fetch : String → List RawEntry) (dtO : String → Option ParsedDt)
    (g4fO : Option (String → Except Unit String)) (now days limit : Int) (ug : Bool)
    (h : 0 ≤ limit) :
    ((fetch_news feeds fetch dtO g4fO now days limit ug).length : Int) ≤ limit ∧
    (limit = 0 → fetch_news feeds fetch dtO g4fO now days limit ug = []) := by
  constructor
  · unfold fetch_news pySliceStop
    rw [if_pos h]
    rw [List.length_take]
    have h1 := Nat.min_le_left limit.toNat
      (sorted_of feeds fetch dtO g4fO now days ug).length
    omega
  · intro h0
    subst h0
    unfold fetch_news pySliceStop
    simp

/-- C4 witness: the length bound instantiated on the concrete run with
limit seven. -/
theorem fetch_news_length_le_limit_witness :
    (0 : Int) ≤ 7 ∧
    ((fetch_news feeds0 fetch0 dtOracle0 none 1704153600 7 7 false).length : Int) ≤ 7 ∧
    fetch_news feeds0 fetch0 dtOracle0 none 1704153600 7 0 false = [] :=
  ⟨by decide,
   (fetch_news_length_le_limit feeds0 fetch0 dtOracle0 none 1704153600 7 7 false
     (by decide)).1,
   (fetch_news_length_le_limit feeds0 fetch0 dtOracle0 none 1704153600 7 0 false
     (by decide)).2 rfl⟩

/-- C10: for every negative limit, when the sorted deduplicated list is
longer than the magnitude of the limit, the Python slice keeps the
leading items and drops that magnitude of items from the end, so
fetch_news returns a nonempty result rather than an empty sequence or
an error. -/
theorem fetch_news_negative_limit
    (feeds : List (String × List (String × String)))
    (fetch : String → List RawEntry) (dtO : String → Option ParsedDt)
    (g4fO : Option (String → Except Unit String)) (now days limit : Int) (ug : Bool)
    (h : limit < 0)
    (hn : (-limit).toNat < (sorted_of feeds fetch dtO g4fO now days ug).length) :
    fetch_news feeds fetch dtO g4fO now days limit ug =
      (sorted_of feeds fetch dtO g4fO now days ug).take
        ((sorted_of feeds fetch dtO g4fO now days ug).length - (-limit).toNat) ∧
    fetch_news feeds fetch dtO g4fO now days limit ug ≠ [] := by
  have heq : fetch_news feeds fetch dtO g4fO now days limit ug =
      (sorted_of feeds fetch dtO g4fO now days ug).take
        ((sorted_of feeds fetch dtO g4fO now days ug).length - (-limit).toNat) := by
    unfold fetch_news pySliceStop
    rw [if_neg (by omega)]
    congr 1
    omega
  refine ⟨heq, ?_⟩
  rw [heq]
  intro hemp
  have hlen := congrArg List.length hemp
  rw [List.length_take] at hlen
  have h2 : min ((sorted_of feeds fetch dtO g4fO now days ug).length - (-limit).toNat)
      (sorted_of feeds fetch dtO g4fO now days ug).length =
      (sorted_of feeds fetch dtO g4fO now days ug).length - (-limit).toNat :=
    Nat.min_eq_left (Nat.sub_le _ _)
  rw [h2] at hlen
  simp only [List.length_nil] at hlen
  omega

/-- C10 witness: a concrete run of two items with limit minus one
returns the single leading item. -/
theorem fetch_news_negative_limit_witness :
    (-1 : Int) < 0 ∧
    ((-(-1) : Int)).toNat < (sorted_of feeds0 fetch0 dtOracle0 none 1704153600 7 false).length ∧
    fetch_news feeds0 fetch0 dtOracle0 none 1704153600 7 (-1) false =
      (sorted_of feeds0 fetch0 dtOracle0 none 1704153600 7 false).take
        ((sorted_of feeds0 fetch0 dtOracle0 none 1704153600 7 false).length
          - ((-(-1) : Int)).toNat) ∧
    fetch_news feeds0 fetch0 dtOracle0 none 1704153600 7 (-1) false ≠ [] :=
  ⟨by decide, by decide,
   (fetch_news_negative_limit feeds0 fetch0 dtOracle0 none 1704153600 7 (-1) false
     (by decide) (by decide)).1,
   (fetch_news_negative_limit feeds0 fetch0 dtOracle0 none 1704153600 7 (-1) false
     (by decide) (by decide)).2⟩

/-- C7: parse_datetime is total and never raises: it returns none on
empty input and on input the oracle does not parse, returns the naive
timestamp unchanged when no timezone is present, and converts to UTC by
subtracting the offset when timezone information is present. -/
theorem parse_datetime_total (dtO : String → Option ParsedDt) (s : String) :
    (s = "" → parse_datetime dtO s = none) ∧
    (dtO s = none → parse_datetime dtO s = none) ∧
    (∀ t, s ≠ "" → dtO s = some { t := t, tzOffset := none } →
      parse_datetime dtO s = some t) ∧
    (∀ t off, s ≠ "" → dtO s = some { t := t, tzOffset := some off } →
      parse_datetime dtO s = some (t - off)) := by
  refine ⟨?_, ?_, ?_, ?_⟩
  · intro h
    subst h
    rfl
  · intro h
    unfold parse_datetime
    split
    · rfl
    · rw [h]
  · intro t hs hd
    unfold parse_datetime
    rw [if_neg hs, hd]
  · intro t off hs hd
    unfold parse_datetime
    rw [if_neg hs, hd]

/-- dtOracleAware is a concrete oracle whose single parsed value
carries an explicit timezone offset of one hour. -/
def dtOracleAware : String → Option ParsedDt := fun s =>
  if s = "AWARE" then some { t := 100, tzOffset := some 3600 } else none

/-- C7 witness: parse_datetime evaluated on empty, unparsable, naive
and timezone-aware concrete inputs. -/
theorem parse_datetime_total_witness :
    parse_datetime dtOracle0 "" = none ∧
    parse_datetime dtOracle0 "baddate" = none ∧
    parse_datetime dtOracle0 "GOODDATE" = some 1704067200 ∧
    parse_datetime dtOracleAware "AWARE" = some (100 - 3600) :=
  ⟨(parse_datetime_total dtOracle0 "").1 rfl,
   (parse_datetime_total dtOracle0 "baddate").2.1 (by decide),
   (parse_datetime_total dtOracle0 "GOODDATE").2.2.1 1704067200 (by decide) (by decide),
   (parse_datetime_total dtOracleAware "AWARE").2.2.2 100 3600 (by decide) (by decide)⟩

/-- C6: whenever the external summarization call fails — the library
is unavailable or every call raises — summarize_with_g4f returns
exactly the naive summary of the same text and no exception escapes,
and a whole fetch_news run with the failing external summarizer equals
the run with the naive strategy. -/
theorem summarize_with_g4f_fallback
    (g4fO : Option (String → Except Unit String))
    (hf : ∀ f, g4fO = some f → ∀ t, f t = Except.error ())
    (text : String)
    (feeds : List (String × List (String × String)))
    (fetch : String → List RawEntry) (dtO : String → Option ParsedDt)
    (now days limit : Int) :
    summarize_with_g4f g4fO text = summarize_naive text 2 300 ∧
    fetch_news feeds fetch dtO g4fO now days limit true =
      fetch_news feeds fetch dtO g4fO now days limit false := by
  have hsum : ∀ s, summarize_with_g4f g4fO s = summarize_naive s 2 300 := by
    intro s
    cases g4fO with
    | none => rfl
    | some f =>
      simp only [summarize_with_g4f]
      rw [hf f rfl]
  refine ⟨hsum text, ?_⟩
  have hpe : ∀ cat src cutoff e,
      processEntry cat src cutoff dtO g4fO true e =
      processEntry cat src cutoff dtO g4fO false e := by
    intro cat src cutoff e
    unfold processEntry mkDigestItem
    simp [hsum]
  have hall : all_news_of feeds fetch dtO g4fO now days true =
      all_news_of feeds fetch dtO g4fO now days false := by
    unfold all_news_of
    congr 1
    funext cf
    congr 1
    funext su
    congr 1
    funext e
    exact hpe cf.1 su.1 (cutoffOf now days) e
  unfold fetch_news sorted_of unique_of
  rw [hall]

/-- g4fFail is the concrete always-raising external summarizer. -/
def g4fFail : Option (String → Except Unit String) :=
  some fun _ => Except.error ()

/-- C6 witness: the fallback statement instantiated on a concrete text
and the concrete pipeline run, with the always-failing service. -/
theorem summarize_with_g4f_fallback_witness :
    summarize_with_g4f g4fFail "Something happened. More text follows." =
      summarize_naive "Something happened. More text follows." 2 300 ∧
    fetch_news feeds0 fetch0 dtOracle0 g4fFail 1704153600 7 7 true =
      fetch_news feeds0 fetch0 dtOracle0 g4fFail 1704153600 7 7 false :=
  summarize_with_g4f_fallback g4fFail
    (by
      intro f hf t
      have h2 : (fun _ : String => (Except.error () : Except Unit String)) = f :=
        Option.some.inj hf
      rw [← h2])
    "Something happened. More text follows." feeds0 fetch0 dtOracle0 1704153600 7 7

/-- entryABC1 is a concrete entry whose title and source concatenate to
the same fingerprint input as entryABC2 although the pairs differ. -/
def entryABC1 : RawEntry :=
  { title := "AB", summary := "Alpha.", description := "",
    published := "", updated := "", link := "LA" }

/-- entryABC2 is the second colliding concrete entry. -/
def entryABC2 : RawEntry :=
  { title := "A", summary := "Beta.", description := "",
    published := "", updated := "", link := "LB" }

/-- fetch9 serves the two colliding entries from two sources. -/
def fetch9 : String → List RawEntry := fun url =>
  if url = "v1" then [entryABC1] else if url = "v2" then [entryABC2] else []

/-- feeds9 configures two sources named C and BC in one category. -/
def feeds9 : List (String × List (String × String)) :=
  [("Cat", [("C", "v1"), ("BC", "v2")])]

/-- C9: the fingerprint is computed from the bare concatenation of
title and source, so the distinct pairs AB with C and A with BC collide
on the fingerprint: both raw entries survive processing, the
concatenations are equal while the pairs differ, and only the
first-seen item appears in the result. -/
theorem fingerprint_bare_concat_collision :
    (all_news_of feeds9 fetch9 dtOracle0 none 1704153600 7 false).map
      (fun n => (n.title, n.source)) = [("AB", "C"), ("A", "BC")] ∧
    itemKey { title := "AB", summary := "", date := "", source := "C",
              link := "", category := "" } =
      itemKey { title := "A", summary := "", date := "", source := "BC",
                link := "", category := "" } ∧
    ("AB", "C") ≠ (("A", "BC") : String × String) ∧
    (fetch_news feeds9 fetch9 dtOracle0 none 1704153600 7 7 false).map
      (fun n => (n.title, n.source)) = [("AB", "C")] := by
  refine ⟨by decide, by decide, by decide, by decide⟩

theorem dropTrailWs_length_le : ∀ l : List Char, (dropTrailWs l).length ≤ l.length := by
  intro l
  induction l with
  | nil => exact Nat.le_refl _
  | cons c cs ih =>
    simp only [dropTrailWs]
    split
    · split
      · simp
      · simp
    · rename_i d ds h
      have h2 : (d :: ds).length ≤ cs.length := h ▸ ih
      simp only [List.length_cons] at h2 ⊢
      omega

/-- dropTrailNonWs removes the maximal trailing run of non-whitespace
characters, the broken word at a cut position. -/
def dropTrailNonWs (l : List Char) : List Char :=
  (l.reverse.dropWhile (fun c => !isPyWs c)).reverse

/-- wordSafeCut cuts a character list to at most a given length at a
position that avoids mid-word cuts where feasible: when the plain cut
would split a word and some whitespace precedes the cut, the trailing
broken word is dropped instead. -/
def wordSafeCut (n : Nat) (l : List Char) : List Char :=
  if l.length ≤ n then l.take n
  else
    let hard := l.take n
    let lastKeptWs := match hard.reverse with
      | [] => true
      | c :: _ => isPyWs c
    let nextWs := match l.drop n with
      | [] => true
      | c :: _ => isPyWs c
    if lastKeptWs || nextWs then hard
    else
      let safe := dropTrailNonWs hard
      if safe.isEmpty then hard else safe

/-- summarizeSpecWordSafe renders the summarizer contract in the words
of the specification, for comparison with the embedded code: split into
sentences, join the first max_sentences, and if the join exceeds
max_chars, truncate to max_chars - 1 characters at a position that
avoids mid-word cuts where feasible, trim trailing whitespace and
append the ellipsis. -/
def summarizeSpecWordSafe (text : String) (max_sentences max_chars : Nat) : String :=
  if text = "" then ""
  else
    let summary := joinSp ((splitSentences text).take max_sentences)
    if max_chars < summary.length then
      rstripStr (String.mk (wordSafeCut (max_chars - 1) summary.data)) ++ "..."
    else summary

/-- c5Text is a single 323-character sentence whose only whitespace
sits after the second character, so the fixed cut at position 299 lands
in the middle of a long word although a word-boundary cut exists. -/
def c5Text : String :=
  "ab " ++ String.mk (List.replicate 320 'z')

/-- C5 counterexample: on c5Text the naive summarizer cuts at the fixed
position 299, in the middle of the 320-character word, although the
word-boundary truncation the claim describes was feasible and produces
a different string; so the claim that the truncation position avoids
mid-word cuts where feasible is false of the code. -/
theorem summarize_naive_midword_counterexample :
    summarize_naive c5Text 2 300 =
      "ab " ++ String.mk (List.replicate 296 'z') ++ "..." ∧
    summarizeSpecWordSafe c5Text 2 300 = "ab..." ∧
    summarize_naive c5Text 2 300 ≠ summarizeSpecWordSafe c5Text 2 300 := by
  refine ⟨by decide, by decide, by decide⟩

/-- C5 (amended): the naive summarizer splits the text into sentences
at sentence punctuation followed by whitespace, joins the first two
sentences, and if the joined result exceeds 300 characters it truncates
at the fixed position 299 regardless of word boundaries, trims trailing
whitespace and appends the ellipsis marker; empty input yields the
empty string, and a truncated result is at most 302 characters and ends
with the ellipsis. -/
theorem summarize_naive_c5_amended (text : String) :
    (text = "" → summarize_naive text 2 300 = "") ∧
    (text ≠ "" →
      summarize_naive text 2 300 =
        (if 300 < (joinSp ((splitSentences text).take 2)).length then
          rstripStr (strTake 299 (joinSp ((splitSentences text).take 2))) ++ "..."
         else joinSp ((splitSentences text).take 2))) ∧
    (text ≠ "" → 300 < (joinSp ((splitSentences text).take 2)).length →
      (summarize_naive text 2 300).length ≤ 302 ∧
      ∃ pre, summarize_naive text 2 300 = pre ++ "...") := by
  refine ⟨?_, ?_, ?_⟩
  · intro h
    subst h
    rfl
  · intro h
    simp only [summarize_naive]
    rw [if_neg h]
  · intro h hlen
    have heq : summarize_naive text 2 300 =
        rstripStr (strTake 299 (joinSp ((splitSentences text).take 2))) ++ "..." := by
      simp only [summarize_naive]
      rw [if_neg h, if_pos hlen]
    constructor
    · rw [heq, String.length_append]
      have h1 : (rstripStr (strTake 299 (joinSp ((splitSentences text).take 2)))).length
          ≤ 299 := by
        show (dropTrailWs ((joinSp ((splitSentences text).take 2)).data.take 299)).length ≤ 299
        calc (dropTrailWs ((joinSp ((splitSentences text).take 2)).data.take 299)).length
            ≤ ((joinSp ((splitSentences text).take 2)).data.take 299).length :=
              dropTrailWs_length_le _
          _ ≤ 299 := by
              rw [List.length_take]
              exact Nat.min_le_left _ _
      have h3 : ("..." : String).length = 3 := rfl
      omega
    · exact ⟨rstripStr (strTake 299 (joinSp ((splitSentences text).take 2))), heq⟩

/-- C5 witness: the amended characterization instantiated on the empty
string and on the concrete over-long text. -/
theorem summarize_naive_c5_amended_witness :
    summarize_naive "" 2 300 = "" ∧
    summarize_naive c5Text 2 300 =
      (if 300 < (joinSp ((splitSentences c5Text).take 2)).length then
        rstripStr (strTake 299 (joinSp ((splitSentences c5Text).take 2))) ++ "..."
       else joinSp ((splitSentences c5Text).take 2)) ∧
    (summarize_naive c5Text 2 300).length ≤ 302 ∧
    (∃ pre, summarize_naive c5Text 2 300 = pre ++ "...") :=
  ⟨(summarize_naive_c5_amended "").1 rfl,
   (summarize_naive_c5_amended c5Text).2.1 (by decide),
   ((summarize_naive_c5_amended c5Text).2.2 (by decide) (by decide)).1,
   ((summarize_naive_c5_amended c5Text).2.2 (by decide) (by decide)).2⟩

